import Mathlib

/-!
Shallow embedding of the KBFS file-operation facade (`src/keybaseca/kbfs/kbfs.go`)
and of the kssh CLI argument scanner (`ParseArgs` in package kssh).

The outside world (the local filesystem probed by `os.Stat`, `ioutil.ReadFile`,
and the `keybase` control binary invoked through `exec.Command` /
`CombinedOutput`) is modelled as an explicit `World` record of response
functions.  Every facade operation returns both its Go result and the list of
subprocess invocations it performed, in order, so that claims about which
subcommands run, with which arguments and standard input, are statable.
-/

namespace Kbfs

/-- Model of a Go `os.Stat` error: whether `os.IsNotExist` holds of it, plus
its message text. `none` at the call site models a `nil` stat error. -/
structure StatErr where
  isNotExist : Bool
  msg : String
deriving DecidableEq, Repr

/-- Model of the result of `exec.Cmd.CombinedOutput`: the combined
stdout/stderr text, and `some e` when the invocation returned error `e`
(`none` models a `nil` error, i.e. exit status 0). -/
structure CmdOut where
  output : String
  exitErr : Option String
deriving DecidableEq, Repr

/-- One subprocess invocation of the control binary: the argument list passed
after the binary path, and the text supplied on the standard input stream. -/
structure Invocation where
  args : List String
  stdin : String
deriving DecidableEq, Repr

/-- The environment a facade call runs against: `stat` models `os.Stat`
(`none` = success), `readFile` models `ioutil.ReadFile`, and `run` models
spawning the control binary with the given argument list and stdin and
collecting its combined output. -/
structure World where
  stat : String → Option StatErr
  readFile : String → Except String String
  run : List String → String → CmdOut

/-- Model of Go `strings.Contains s pat`. -/
def strContains (s pat : String) : Bool :=
  decide (pat.data <:+: s.data)

/-- Model of Go `unicode.IsSpace` on the characters relevant here, via Lean's
`Char.isWhitespace`. -/
def goIsSpace (c : Char) : Bool := c.isWhitespace

/-- Model of Go `strings.TrimSpace`: drop whitespace from both ends. -/
def trimSpace (s : String) : String :=
  ⟨((s.data.dropWhile goIsSpace).reverse.dropWhile goIsSpace).reverse⟩

/-- Split a character list on a separator character; models the semantics of
Go `strings.Split` with a one-character separator (n+1 pieces for n
separators; the empty input gives one empty piece). -/
def splitCharList (c : Char) : List Char → List (List Char)
  | [] => [[]]
  | x :: xs =>
    if x = c then [] :: splitCharList c xs
    else
      match splitCharList c xs with
      | [] => [[x]]
      | g :: gs => (x :: g) :: gs

/-- Model of Go `strings.Split s "\n"`. -/
def splitOnNewline (s : String) : List String :=
  (splitCharList (Char.ofNat 10) s.data).map (fun l => ⟨l⟩)

/-- `supportsFuse` from kbfs.go: all four fixed probe paths must be
stat-able. -/
def supportsFuse (st : String → Option StatErr) : Bool :=
  (st "/keybase").isNone && (st "/keybase/team").isNone &&
    (st "/keybase/private").isNone && (st "/keybase/public").isNone

/-- The error message built by `FileExists` on an unrecognized stat failure:
`fmt.Errorf("failed to stat %s: %s (%v)", filename, TrimSpace(bytes), err)`. -/
def statErrMsg (filename output e : String) : String :=
  "failed to stat " ++ filename ++ ": " ++ trimSpace output ++ " (" ++ e ++ ")"

/-- The error message built by `Read` on failure. -/
def readErrMsg (filename output e : String) : String :=
  "failed to read " ++ filename ++ ": " ++ trimSpace output ++ " (" ++ e ++ ")"

/-- The error message built by `Delete` on failure. -/
def deleteErrMsg (filename output e : String) : String :=
  "failed to delete the file at " ++ filename ++ ": " ++ trimSpace output ++ " (" ++ e ++ ")"

/-- The error message built by `Write` on failure. -/
def writeErrMsg (filename output e : String) : String :=
  "failed to write to file at " ++ filename ++ ": " ++ trimSpace output ++ " (" ++ e ++ ")"

/-- The error message built by `List` on failure.  Note the source hardcodes
the text `/keybase/team/` here instead of interpolating the requested path. -/
def listErrMsg (output e : String) : String :=
  "failed to list files in /keybase/team/: " ++ trimSpace output ++ " (" ++ e ++ ")"

/-- `Operation.FileExists` from kbfs.go.  Returns the Go `(bool, error)` pair
together with the subprocess invocations performed (none on the FUSE path,
one `fs stat` invocation on the bridge path). -/
def FileExists (w : World) (filename : String) :
    (Bool × Option String) × List Invocation :=
  if supportsFuse w.stat then
    match w.stat filename with
    | none => ((true, none), [])
    | some e => if e.isNotExist then ((false, none), []) else ((false, some e.msg), [])
  else
    let r := w.run [ "fs", "stat", filename ] ""
    let tr : List Invocation := [⟨[ "fs", "stat", filename ], ""⟩]
    match r.exitErr with
    | none => ((true, none), tr)
    | some e =>
      if strContains r.output "ERROR file does not exist" then ((false, none), tr)
      else ((false, some (statErrMsg filename r.output e)), tr)

/-- `Operation.Read` from kbfs.go: file contents modelled as a `String`
(Go `[]byte`); `Except.error` models a non-nil Go error. -/
def Read (w : World) (filename : String) :
    Except String String × List Invocation :=
  if supportsFuse w.stat then
    (w.readFile filename, [])
  else
    let r := w.run [ "fs", "read", filename ] ""
    let tr : List Invocation := [⟨[ "fs", "read", filename ], ""⟩]
    match r.exitErr with
    | some e => (Except.error (readErrMsg filename r.output e), tr)
    | none => (Except.ok r.output, tr)

/-- `Operation.Delete` from kbfs.go: always the bridge path; `some e` models a
non-nil Go error. -/
def Delete (w : World) (filename : String) :
    Option String × List Invocation :=
  let r := w.run [ "fs", "rm", filename ] ""
  let tr : List Invocation := [⟨[ "fs", "rm", filename ], ""⟩]
  match r.exitErr with
  | some e => (some (deleteErrMsg filename r.output e), tr)
  | none => (none, tr)

/-- The non-append branch of `Operation.Write` (the `else` branch of the
`appendToFile` test, with the shared tail of the function): invoke
`fs write <filename>` with `contents` on stdin. -/
def writeNoAppend (w : World) (filename contents : String) :
    Option String × List Invocation :=
  let r := w.run [ "fs", "write", filename ] contents
  let tr : List Invocation := [⟨[ "fs", "write", filename ], contents⟩]
  match r.exitErr with
  | some e => (some (writeErrMsg filename r.output e), tr)
  | none => (none, tr)

/-- `Operation.Write` from kbfs.go.  In the append case the source first calls
`FileExists`; if the file does not exist or the check errored it recursively
calls `Write(filename, "", false)` (here `writeNoAppend w filename ""`),
returning that creation error if any; only then does it invoke
`fs write --append <filename>` with `contents` on stdin. -/
def Write (w : World) (filename contents : String) (appendToFile : Bool) :
    Option String × List Invocation :=
  if appendToFile then
    let fe := FileExists w filename
    if !fe.1.1 || fe.1.2.isSome then
      let cr := writeNoAppend w filename ""
      match cr.1 with
      | some e => (some e, fe.2 ++ cr.2)
      | none =>
        let r := w.run [ "fs", "write", "--append", filename ] contents
        let tr := fe.2 ++ cr.2 ++ [⟨[ "fs", "write", "--append", filename ], contents⟩]
        match r.exitErr with
        | some e => (some (writeErrMsg filename r.output e), tr)
        | none => (none, tr)
    else
      let r := w.run [ "fs", "write", "--append", filename ] contents
      let tr := fe.2 ++ [⟨[ "fs", "write", "--append", filename ], contents⟩]
      match r.exitErr with
      | some e => (some (writeErrMsg filename r.output e), tr)
      | none => (none, tr)
  else
    writeNoAppend w filename contents

/-- `Operation.List` from kbfs.go (named `ListFiles` here because `List` is
taken by the Lean core list type): invoke `fs ls -1 --nocolor <path>`, and on
success split the combined output on newlines dropping empty lines.  The Go
`nil` slice result for zero entries is modelled as the empty list. -/
def ListFiles (w : World) (path : String) :
    Except String (List String) × List Invocation :=
  let r := w.run [ "fs", "ls", "-1", "--nocolor", path ] ""
  let tr : List Invocation := [⟨[ "fs", "ls", "-1", "--nocolor", path ], ""⟩]
  match r.exitErr with
  | some e => (Except.error (listErrMsg r.output e), tr)
  | none => (Except.ok ((splitOnNewline r.output).filter (fun s => s != "")), tr)

/-- A stat function under which no local probe succeeds, so `supportsFuse`
is false and every operation takes the bridge path. -/
def noFuseStat : String → Option StatErr := fun _ => some ⟨false, "stat failed"⟩

/-- Bridge-only world whose control binary always fails, with combined output
`boom` and underlying error `exit status 1`. -/
def wFail : World :=
  ⟨noFuseStat, fun _ => Except.error "not mounted",
   fun _ _ => ⟨ "boom", some "exit status 1"⟩⟩

/-- Bridge-only world whose control binary always succeeds, emitting two
lines and a trailing newline. -/
def wOk : World :=
  ⟨noFuseStat, fun _ => Except.error "not mounted",
   fun _ _ => ⟨ "a\nb\n", none⟩⟩

/-- Bridge-only world whose control binary fails with combined output that
contains the bare text `file does not exist` but not the `ERROR `-prefixed
text the source actually matches on. -/
def wPlainMsg : World :=
  ⟨noFuseStat, fun _ => Except.error "not mounted",
   fun _ _ => ⟨ "file does not exist", some "exit status 1"⟩⟩

/-- Claim C1: the append write first consults `FileExists`; a missing file or
a failed existence check triggers a creation write of empty contents whose
error, if any, is returned before the append subcommand is ever invoked;
otherwise the append invocation (with the contents on stdin) follows. -/
def C1Prop (w : World) (P C : String) : Prop :=
  let fe := FileExists w P
  let cr := writeNoAppend w P ""
  let res := Write w P C true
  fe.2 <+: res.2 ∧
  ((fe.1.1 = false ∨ fe.1.2 ≠ none) →
     (∀ e, cr.1 = some e →
        res.1 = some e ∧ res.2 = fe.2 ++ cr.2 ∧
        ∀ i ∈ res.2, i.args ≠ [ "fs", "write", "--append", P ]) ∧
     (cr.1 = none →
        res.2 = fe.2 ++ cr.2 ++ [⟨[ "fs", "write", "--append", P ], C⟩])) ∧
  ((fe.1.1 = true ∧ fe.1.2 = none) →
     res.2 = fe.2 ++ [⟨[ "fs", "write", "--append", P ], C⟩])

/-- Claim C2 (amended): bridge-path `FileExists` returns `(true, nil)` on
subprocess success; on failure it returns `(false, nil)` when the combined
output contains `ERROR file does not exist`, and otherwise an error carrying
the path, the trimmed combined output, and the underlying error. -/
def C2Prop (w : World) (P : String) : Prop :=
  let r := w.run [ "fs", "stat", P ] ""
  (r.exitErr = none → (FileExists w P).1 = (true, none)) ∧
  (∀ e, r.exitErr = some e →
     (strContains r.output "ERROR file does not exist" = true →
        (FileExists w P).1 = (false, none)) ∧
     (strContains r.output "ERROR file does not exist" = false →
        (FileExists w P).1 = (false, some (statErrMsg P r.output e)) ∧
        strContains (statErrMsg P r.output e) P = true ∧
        strContains (statErrMsg P r.output e) (trimSpace r.output) = true ∧
        strContains (statErrMsg P r.output e) e = true))

/-- Claim C4: a successful `List` returns exactly the combined output split
on newlines with empty lines removed, order preserved; zero surviving lines
give the empty result with a nil error. -/
def C4Prop (w : World) (path : String) : Prop :=
  let r := w.run [ "fs", "ls", "-1", "--nocolor", path ] ""
  let entries := (splitOnNewline r.output).filter (fun s => s != "")
  r.exitErr = none →
    (ListFiles w path).1 = Except.ok entries ∧
    (∀ s ∈ entries, s ≠ "") ∧
    entries.Sublist (splitOnNewline r.output) ∧
    (entries = [] → (ListFiles w path).1 = Except.ok [])

/-- Claim C6 (amended): every subprocess an operation spawns carries one of
the fixed argument lists, each prefixed with the `fs` subcommand selector,
with stdin as described (write contents are piped; creation pipes empty
contents; the other subcommands pipe nothing). -/
def C6Prop (w : World) (p c : String) (b : Bool) : Prop :=
  (∀ i ∈ (FileExists w p).2, i = ⟨[ "fs", "stat", p ], ""⟩) ∧
  (∀ i ∈ (Read w p).2, i = ⟨[ "fs", "read", p ], ""⟩) ∧
  (Delete w p).2 = [⟨[ "fs", "rm", p ], ""⟩] ∧
  (ListFiles w p).2 = [⟨[ "fs", "ls", "-1", "--nocolor", p ], ""⟩] ∧
  (∀ i ∈ (Write w p c b).2,
     i = ⟨[ "fs", "stat", p ], ""⟩ ∨ i = ⟨[ "fs", "write", p ], c⟩ ∨
     i = ⟨[ "fs", "write", p ], ""⟩ ∨ i = ⟨[ "fs", "write", "--append", p ], c⟩)

end Kbfs

namespace Kssh

/-- `CLIArgument` from the kssh package. -/
structure CLIArgument where
  Name : String
  HasArgument : Bool
deriving DecidableEq, Repr

/-- `ParsedCLIArgument` from the kssh package.  A boolean flag leaves `Value`
at the Go zero value `""`. -/
structure ParsedCLIArgument where
  Argument : CLIArgument
  Value : String
deriving DecidableEq, Repr

/-- The scanning loop of `ParseArgs`, rendered as recursion over the token
list.  The inner loop over `cliArguments` with first-match-wins is
`List.find?`; consuming the value of a value-requiring flag skips the next
token, and a value-requiring flag in final position is the error case. -/
def parseArgsAux (cliArguments : List CLIArgument) :
    List String → Except String (List String × List ParsedCLIArgument)
  | [] => Except.ok ([], [])
  | arg :: rest =>
    match cliArguments.find? (fun c => c.Name == arg) with
    | some cliArg =>
      if cliArg.HasArgument then
        match rest with
        | [] => Except.error ("argument " ++ cliArg.Name ++ " requires a value")
        | v :: rest2 =>
          match parseArgsAux cliArguments rest2 with
          | Except.error e => Except.error e
          | Except.ok (rem, found) => Except.ok (rem, ⟨cliArg, v⟩ :: found)
      else
        match parseArgsAux cliArguments rest with
        | Except.error e => Except.error e
        | Except.ok (rem, found) => Except.ok (rem, ⟨cliArg, ""⟩ :: found)
    | none =>
      match parseArgsAux cliArguments rest with
      | Except.error e => Except.error e
      | Except.ok (rem, found) => Except.ok (arg :: rem, found)

/-- `ParseArgs` from the kssh package.  The Go function returns
`([]string, []ParsedCLIArgument, error)` where the error path returns
`nil, nil, err`; a `nil` slice is modelled as `none`, a non-nil (possibly
empty) slice as `some`. -/
def ParseArgs (args : List String) (cliArguments : List CLIArgument) :
    Option (List String) × Option (List ParsedCLIArgument) × Option String :=
  match parseArgsAux cliArguments args with
  | Except.error e => (none, none, some e)
  | Except.ok (rem, found) => (some rem, some found, none)

/-- The tokens of the input consumed by a list of matches, in match order: the
flag name, followed by the consumed value when the flag requires one. -/
def flattenMatches : List ParsedCLIArgument → List String
  | [] => []
  | p :: ps =>
    if p.Argument.HasArgument then p.Argument.Name :: p.Value :: flattenMatches ps
    else p.Argument.Name :: flattenMatches ps

/-- Claim C7: a successful scan returns the unmatched tokens as an
order-preserving subsequence of the input none of which equals any descriptor
name, matches whose descriptor is the first one (in descriptor order) with
that exact name, consumed tokens (flag names and their values, in match
order) forming a subsequence of the input, and every input token accounted
for exactly once. -/
def C7Prop (args : List String) (cli : List CLIArgument) : Prop :=
  ∀ rem found, ParseArgs args cli = (some rem, some found, none) →
    rem.Sublist args ∧
    (∀ t ∈ rem, ∀ c ∈ cli, c.Name ≠ t) ∧
    (∀ p ∈ found, cli.find? (fun c => c.Name == p.Argument.Name) = some p.Argument) ∧
    (flattenMatches found).Sublist args ∧
    rem.length + (flattenMatches found).length = args.length

/-- Claim C8 (amended): a scan fails only when the final token, reached as a
flag, has a value-requiring first-matching descriptor, and the error names
that flag; the scan succeeds whenever the final token has no value-requiring
first-matching descriptor. -/
def C8Prop (args : List String) (cli : List CLIArgument) : Prop :=
  (∀ e, (ParseArgs args cli).2.2 = some e →
     ∃ c last, args.getLast? = some last ∧
       cli.find? (fun x => x.Name == last) = some c ∧
       c.HasArgument = true ∧
       e = "argument " ++ c.Name ++ " requires a value") ∧
  ((∀ last c, args.getLast? = some last →
      cli.find? (fun x => x.Name == last) = some c → c.HasArgument = false) →
    (ParseArgs args cli).2.2 = none)

end Kssh

namespace Kbfs

/-- The non-append write performs exactly one invocation: `fs write <file>`
with the contents on stdin, whether or not the subprocess fails. -/
theorem writeNoAppend_trace (w : World) (P c : String) :
    (writeNoAppend w P c).2 = [⟨[ "fs", "write", P ], c⟩] := by
  unfold writeNoAppend
  simp only []
  split <;> rfl

/-- `FileExists` performs no invocation (FUSE path) or exactly one `fs stat`
invocation (bridge path). -/
theorem fileExists_trace (w : World) (P : String) :
    (FileExists w P).2 = [] ∨ (FileExists w P).2 = [⟨[ "fs", "stat", P ], ""⟩] := by
  unfold FileExists
  simp only []
  split
  · split
    · exact Or.inl rfl
    · split <;> exact Or.inl rfl
  · split
    · exact Or.inr rfl
    · split <;> exact Or.inr rfl

/-- `Read` performs no invocation (FUSE path) or exactly one `fs read`
invocation (bridge path). -/
theorem read_trace (w : World) (P : String) :
    ∀ i ∈ (Read w P).2, i = ⟨[ "fs", "read", P ], ""⟩ := by
  unfold Read
  simp only []
  split
  · simp
  · split <;> simp

/-- `Delete` performs exactly one `fs rm` invocation. -/
theorem delete_trace (w : World) (P : String) :
    (Delete w P).2 = [⟨[ "fs", "rm", P ], ""⟩] := by
  unfold Delete
  simp only []
  split <;> rfl

/-- `ListFiles` performs exactly one `fs ls -1 --nocolor` invocation. -/
theorem listFiles_trace (w : World) (P : String) :
    (ListFiles w P).2 = [⟨[ "fs", "ls", "-1", "--nocolor", P ], ""⟩] := by
  unfold ListFiles
  simp only []
  split <;> rfl

/-- A string whose character data decomposes around a pattern contains that
pattern. -/
theorem strContains_of_parts (s pat : String) (pre post : List Char)
    (hd : s.data = pre ++ (pat.data ++ post)) : strContains s pat = true := by
  rw [strContains, decide_eq_true_eq]
  exact ⟨pre, post, by rw [List.append_assoc, hd]⟩

/-- C1.  `Write(P, C, true)` first calls `FileExists P`; when the file is
absent or the check errored, it first writes empty contents non-append, and a
failure of that creation step is returned without the append subcommand ever
being invoked; only after a successful or unnecessary creation does the
`fs write --append` invocation with `C` on stdin happen. -/
theorem c1_write_append (w : World) (P C : String) : C1Prop w P C := by
  unfold C1Prop
  simp only []
  have htr : (writeNoAppend w P "").2 = [⟨[ "fs", "write", P ], ""⟩] :=
    writeNoAppend_trace w P ""
  have hfetr := fileExists_trace w P
  rcases hfe : FileExists w P with ⟨⟨b, oe⟩, ftr⟩
  rw [hfe] at hfetr
  simp only [] at hfetr
  rcases hcr : writeNoAppend w P "" with ⟨cres, ctr⟩
  rw [hcr] at htr
  simp only [] at htr
  rcases hrun : w.run [ "fs", "write", "--append", P ] C with ⟨ro, re⟩
  simp only [Write, hfe, hcr, hrun]
  cases b <;> rcases oe with _ | e0 <;> rcases cres with _ | ce <;> rcases re with _ | re0 <;>
    simp only [Bool.not_true, Bool.not_false, Option.isSome_some, Option.isSome_none,
      Bool.false_or, Bool.true_or, Bool.or_false, Bool.or_true, if_true, if_false,
      ite_true, ite_false] <;>
    subst htr <;>
    simp_all <;>
    rcases hfetr with h | h <;> subst h <;> simp_all [ List.prefix_append]

/-- C1 witness: the claim instantiated in a concrete bridge-path world where
every subprocess fails. -/
theorem c1_write_append_witness : C1Prop wFail "p" "c" :=
  c1_write_append wFail "p" "c"

/-- C2 counterexample: the claim as stated is false — a combined output
containing the bare substring `file does not exist` (without the `ERROR `
prefix) does not yield `(false, nil)`; the source only matches
`ERROR file does not exist`. -/
theorem c2_counterexample :
    supportsFuse wPlainMsg.stat = false ∧
    (wPlainMsg.run [ "fs", "stat", "p" ] "").exitErr ≠ none ∧
    strContains (wPlainMsg.run [ "fs", "stat", "p" ] "").output "file does not exist" = true ∧
    (FileExists wPlainMsg "p").1 ≠ (false, none) :=
  ⟨rfl, by decide, by decide, by decide⟩

/-- C2 (amended).  On the bridge path, a successful `fs stat` gives
`(true, nil)`; a failure whose combined output contains
`ERROR file does not exist` gives `(false, nil)`; any other failure gives an
error carrying the path, the trimmed combined output, and the underlying
invocation error. -/
theorem c2_stat_contract (w : World) (P : String)
    (h : supportsFuse w.stat = false) : C2Prop w P := by
  unfold C2Prop
  simp only []
  unfold FileExists
  rw [h]
  simp only [Bool.false_eq_true, if_false]
  rcases hrun : w.run [ "fs", "stat", P ] "" with ⟨out, err⟩
  rcases err with _ | e
  · refine ⟨fun _ => rfl, ?_⟩
    intro e2 he2
    simp only [] at he2
    cases he2
  · refine ⟨?_, ?_⟩
    · intro h0
      simp only [] at h0
      cases h0
    · intro e2 he2
      simp only [] at he2
      cases he2
      cases hsc : strContains out "ERROR file does not exist"
      · refine ⟨?_, ?_⟩
        · intro h1
          cases h1
        · intro _
          refine ⟨by simp, ?_, ?_, ?_⟩
          · refine strContains_of_parts _ _ ("failed to stat ".data)
              (": ".data ++ ((trimSpace out).data ++ (" (".data ++ (e.data ++ ")".data)))) ?_
            simp [statErrMsg, String.data_append, List.append_assoc]
          · refine strContains_of_parts _ _
              ("failed to stat ".data ++ (P.data ++ ": ".data))
              (" (".data ++ (e.data ++ ")".data)) ?_
            simp [statErrMsg, String.data_append, List.append_assoc]
          · refine strContains_of_parts _ _
              ("failed to stat ".data ++ (P.data ++ (": ".data ++ ((trimSpace out).data ++ " (".data))))
              (")".data) ?_
            simp [statErrMsg, String.data_append, List.append_assoc]
      · refine ⟨?_, ?_⟩
        · intro _
          simp
        · intro h1
          cases h1

/-- C2 witness: the amended contract instantiated in a concrete bridge-path
world, with the bridge-path hypothesis discharged by computation. -/
theorem c2_stat_contract_witness :
    supportsFuse wFail.stat = false ∧ C2Prop wFail "p" :=
  ⟨rfl, c2_stat_contract wFail "p" rfl⟩

/-- C3.  The backend detector returns true iff all four fixed probe locations
(the root and the team, private and public scope subpaths) are stat-able; the
iff's contrapositive is exactly: any failing probe makes it false. -/
theorem c3_detector (st : String → Option StatErr) :
    supportsFuse st = true ↔
      (st "/keybase" = none ∧ st "/keybase/team" = none ∧
        st "/keybase/private" = none ∧ st "/keybase/public" = none) := by
  simp [supportsFuse, Bool.and_eq_true, Option.isNone_iff_eq_none, and_assoc]

/-- C4.  When `List` succeeds, its result is exactly the combined output
split on newlines with empty lines removed (hence an order-preserving
sublist of the split with no blank entries), and zero surviving entries give
the empty result with a nil error. -/
theorem c4_list_split (w : World) (path : String) : C4Prop w path := by
  unfold C4Prop
  simp only []
  intro h
  have hok : (ListFiles w path).1 =
      Except.ok ((splitOnNewline
        (w.run [ "fs", "ls", "-1", "--nocolor", path ] "").output).filter
          (fun s => s != "")) := by
    unfold ListFiles
    simp only []
    rw [h]
  refine ⟨hok, ?_, List.filter_sublist _, ?_⟩
  · intro s hs
    have := (List.mem_filter.mp hs).2
    simpa using this
  · intro he
    rw [hok, he]

/-- C4 witness: the claim instantiated at a concrete successful listing. -/
theorem c4_list_split_witness : C4Prop wOk "d" :=
  c4_list_split wOk "d"

/-- C5 is false of the code for `List`: its failure message hardcodes the
text `/keybase/team/` instead of carrying the requested path, so a failing
listing of `/keybase/private/x` produces an error that does not mention that
path. -/
theorem c5_list_error_lacks_path :
    (ListFiles wFail "/keybase/private/x").1 =
      Except.error (listErrMsg "boom" "exit status 1") ∧
    strContains (listErrMsg "boom" "exit status 1") "/keybase/private/x" = false :=
  ⟨rfl, by decide⟩

/-- C6 counterexample: the claim as stated is false — the existence check
spawns the control binary with argument list `fs stat <path>`, not
`stat <path>`: the subcommand selector `fs` is always passed first. -/
theorem c6_counterexample :
    (FileExists wFail "p").2 = [⟨[ "fs", "stat", "p" ], ""⟩] ∧
    ([ "fs", "stat", "p" ] : List String) ≠ [ "stat", "p" ] :=
  ⟨rfl, by decide⟩

/-- C6 (amended).  Every subprocess spawned by any operation carries exactly
one of the fixed argument lists, each prefixed by the `fs` selector, with the
described stdin. -/
theorem c6_invocations (w : World) (p c : String) (b : Bool) : C6Prop w p c b := by
  unfold C6Prop
  refine ⟨?_, read_trace w p, delete_trace w p, listFiles_trace w p, ?_⟩
  · intro i hi
    rcases fileExists_trace w p with h | h <;> rw [h] at hi
    · simp at hi
    · simpa using hi
  · intro i hi
    cases b with
    | false =>
      simp only [Write, Bool.false_eq_true, if_false] at hi
      rw [writeNoAppend_trace] at hi
      simp at hi
      simp [hi]
    | true =>
      have htr := writeNoAppend_trace w p ""
      have hfetr := fileExists_trace w p
      rcases hfe : FileExists w p with ⟨⟨b0, oe⟩, ftr⟩
      rw [hfe] at hfetr
      simp only [] at hfetr
      rcases hcr : writeNoAppend w p "" with ⟨cres, ctr⟩
      rw [hcr] at htr
      simp only [] at htr
      rcases hrun : w.run [ "fs", "write", "--append", p ] c with ⟨ro, re⟩
      simp only [Write, hfe, hcr, hrun] at hi
      subst htr
      cases b0 <;> rcases oe with _ | e0 <;> rcases cres with _ | ce <;> rcases re with _ | re0 <;>
        simp_all <;>
        rcases hfetr with h | h <;> subst h <;> simp_all <;>
        rcases hi with hi | hi <;> simp_all

/-- C6 witness: the amended claim instantiated at a concrete append write in
a concrete bridge-path world. -/
theorem c6_invocations_witness : C6Prop wFail "p" "c" true :=
  c6_invocations wFail "p" "c" true

/-- C9.  `FileExists` never pairs a non-nil error with a true result: on both
backends a non-nil error forces a false boolean, and a true boolean forces a
nil error. -/
theorem c9_exists_result_error_exclusive (w : World) (P : String) :
    ((FileExists w P).1.2 ≠ none → (FileExists w P).1.1 = false) ∧
    ((FileExists w P).1.1 = true → (FileExists w P).1.2 = none) := by
  unfold FileExists
  simp only []
  split
  · split
    · simp
    · split <;> simp
  · split
    · simp
    · split <;> simp

/-- C9 witness: the claim instantiated in a concrete failing world. -/
theorem c9_exists_result_error_exclusive_witness :
    ((FileExists wFail "p").1.2 ≠ none → (FileExists wFail "p").1.1 = false) ∧
    ((FileExists wFail "p").1.1 = true → (FileExists wFail "p").1.2 = none) :=
  c9_exists_result_error_exclusive wFail "p"

end Kbfs

namespace Kssh

/-- Characterization of a successful scan: the remaining tokens are an
order-preserving subsequence of the input matching no descriptor; every match
binds the first descriptor with its name; consumed tokens form a subsequence
of the input in match order; and token counts add up, so no token is used
twice. -/
theorem parseArgsAux_ok (cli : List CLIArgument) (args : List String) :
    ∀ rem found,
      parseArgsAux cli args = Except.ok (rem, found) →
      rem.Sublist args ∧
      (∀ t ∈ rem, ∀ c ∈ cli, c.Name ≠ t) ∧
      (∀ p ∈ found, cli.find? (fun c => c.Name == p.Argument.Name) = some p.Argument) ∧
      (flattenMatches found).Sublist args ∧
      rem.length + (flattenMatches found).length = args.length := by
  induction args using parseArgsAux.induct cli with
  | case1 =>
    intro rem found heq
    simp only [parseArgsAux] at heq
    cases heq
    simp [flattenMatches]
  | case2 v cliArg hfind hhas =>
    intro rem found heq
    simp [parseArgsAux, hfind, hhas] at heq
  | case3 v cliArg hfind hhas v1 rest2 e herr ih =>
    intro rem found heq
    simp [parseArgsAux, hfind, hhas, herr] at heq
  | case4 v cliArg hfind hhas v1 rest2 rem2 found2 hok ih =>
    intro rem found heq
    simp only [parseArgsAux, hfind, hhas, hok, if_true] at heq
    cases heq
    have hname : cliArg.Name = v := by
      have := List.find?_some hfind
      simpa using this
    obtain ⟨ih1, ih2, ih3, ih4, ih5⟩ := ih rem2 found2 hok
    refine ⟨(ih1.cons _).cons _, ih2, ?_, ?_, ?_⟩
    · intro p hp
      rcases List.mem_cons.mp hp with h | h
      · subst h
        simp only [hname]
        exact hfind
      · exact ih3 p h
    · simp only [flattenMatches, hhas, if_true, hname]
      exact (List.cons_sublist_cons.mpr (List.cons_sublist_cons.mpr ih4))
    · simp only [flattenMatches, hhas, if_true, List.length_cons]
      omega
  | case5 v rest2 cliArg hfind hhas e herr ih =>
    intro rem found heq
    simp [parseArgsAux, hfind, hhas, herr] at heq
  | case6 v rest2 cliArg hfind hhas rem2 found2 hok ih =>
    intro rem found heq
    rw [Bool.not_eq_true] at hhas
    simp only [parseArgsAux, hfind, hhas, Bool.false_eq_true, if_false, hok] at heq
    cases heq
    have hname : cliArg.Name = v := by
      have := List.find?_some hfind
      simpa using this
    obtain ⟨ih1, ih2, ih3, ih4, ih5⟩ := ih rem2 found2 hok
    refine ⟨ih1.cons _, ih2, ?_, ?_, ?_⟩
    · intro p hp
      rcases List.mem_cons.mp hp with h | h
      · subst h
        simp only [hname]
        exact hfind
      · exact ih3 p h
    · simp only [flattenMatches, hhas, Bool.false_eq_true, if_false, hname]
      exact List.cons_sublist_cons.mpr ih4
    · simp only [flattenMatches, hhas, Bool.false_eq_true, if_false, List.length_cons]
      omega
  | case7 v rest2 hfind e herr ih =>
    intro rem found heq
    simp [parseArgsAux, hfind, herr] at heq
  | case8 v rest2 hfind rem2 found2 hok ih =>
    intro rem found heq
    simp only [parseArgsAux, hfind, hok] at heq
    cases heq
    obtain ⟨ih1, ih2, ih3, ih4, ih5⟩ := ih rem2 found2 hok
    refine ⟨List.cons_sublist_cons.mpr ih1, ?_, ih3, ih4.cons _, ?_⟩
    · intro t ht c hc
      rcases List.mem_cons.mp ht with h | h
      · subst h
        have := List.find?_eq_none.mp hfind c hc
        simpa using this
      · exact ih2 t h c hc
    · simp only [List.length_cons]
      omega


/-- A scan error always comes from the final token: its first matching
descriptor requires a value and the error message names that flag. -/
theorem parseArgsAux_error_last (cli : List CLIArgument) (args : List String) :
    ∀ e, parseArgsAux cli args = Except.error e →
      ∃ c last, args.getLast? = some last ∧
        cli.find? (fun x => x.Name == last) = some c ∧
        c.HasArgument = true ∧
        e = "argument " ++ c.Name ++ " requires a value" := by
  induction args using parseArgsAux.induct cli with
  | case1 =>
    intro e heq
    simp [parseArgsAux] at heq
  | case2 v cliArg hfind hhas =>
    intro e heq
    simp only [parseArgsAux, hfind, hhas, if_true] at heq
    cases heq
    exact ⟨cliArg, v, rfl, hfind, hhas, rfl⟩
  | case3 v cliArg hfind hhas v1 rest2 e0 herr ih =>
    intro e heq
    simp only [parseArgsAux, hfind, hhas, if_true, herr] at heq
    cases heq
    obtain ⟨c, last, hlast, hfind2, hhas2, hmsg⟩ := ih e0 herr
    refine ⟨c, last, ?_, hfind2, hhas2, hmsg⟩
    cases rest2 with
    | nil => simp at hlast
    | cons x xs =>
      rw [List.getLast?_cons_cons, List.getLast?_cons_cons]
      exact hlast
  | case4 v cliArg hfind hhas v1 rest2 rem2 found2 hok ih =>
    intro e heq
    simp [parseArgsAux, hfind, hhas, hok] at heq
  | case5 v rest2 cliArg hfind hhas e0 herr ih =>
    intro e heq
    rw [Bool.not_eq_true] at hhas
    simp only [parseArgsAux, hfind, hhas, Bool.false_eq_true, if_false, herr] at heq
    cases heq
    obtain ⟨c, last, hlast, hfind2, hhas2, hmsg⟩ := ih e0 herr
    refine ⟨c, last, ?_, hfind2, hhas2, hmsg⟩
    cases rest2 with
    | nil => simp at hlast
    | cons x xs =>
      rw [List.getLast?_cons_cons]
      exact hlast
  | case6 v rest2 cliArg hfind hhas rem2 found2 hok ih =>
    intro e heq
    rw [Bool.not_eq_true] at hhas
    simp [parseArgsAux, hfind, hhas, hok] at heq
  | case7 v rest2 hfind e0 herr ih =>
    intro e heq
    simp only [parseArgsAux, hfind, herr] at heq
    cases heq
    obtain ⟨c, last, hlast, hfind2, hhas2, hmsg⟩ := ih e0 herr
    refine ⟨c, last, ?_, hfind2, hhas2, hmsg⟩
    cases rest2 with
    | nil => simp at hlast
    | cons x xs =>
      rw [List.getLast?_cons_cons]
      exact hlast
  | case8 v rest2 hfind rem2 found2 hok ih =>
    intro e heq
    simp [parseArgsAux, hfind, hok] at heq

/-- A scan succeeds whenever the final token has no value-requiring
first-matching descriptor. -/
theorem parseArgsAux_ok_of_last (cli : List CLIArgument) (args : List String) :
    (∀ last c, args.getLast? = some last →
        cli.find? (fun x => x.Name == last) = some c → c.HasArgument = false) →
    ∃ v, parseArgsAux cli args = Except.ok v := by
  induction args using parseArgsAux.induct cli with
  | case1 =>
    intro _
    exact ⟨([], []), rfl⟩
  | case2 v cliArg hfind hhas =>
    intro h
    have := h v cliArg rfl hfind
    rw [hhas] at this
    cases this
  | case3 v cliArg hfind hhas v1 rest2 e0 herr ih =>
    intro h
    exfalso
    cases rest2 with
    | nil => simp [parseArgsAux] at herr
    | cons x xs =>
      obtain ⟨v2, hv2⟩ := ih (by
        intro last c hlast hfindc
        refine h last c ?_ hfindc
        rw [List.getLast?_cons_cons, List.getLast?_cons_cons]
        exact hlast)
      rw [hv2] at herr
      cases herr
  | case4 v cliArg hfind hhas v1 rest2 rem2 found2 hok ih =>
    intro h
    refine ⟨(rem2, ⟨cliArg, v1⟩ :: found2), ?_⟩
    simp [parseArgsAux, hfind, hhas, hok]
  | case5 v rest2 cliArg hfind hhas e0 herr ih =>
    intro h
    exfalso
    cases rest2 with
    | nil => simp [parseArgsAux] at herr
    | cons x xs =>
      obtain ⟨v2, hv2⟩ := ih (by
        intro last c hlast hfindc
        refine h last c ?_ hfindc
        rw [List.getLast?_cons_cons]
        exact hlast)
      rw [hv2] at herr
      cases herr
  | case6 v rest2 cliArg hfind hhas rem2 found2 hok ih =>
    intro h
    rw [Bool.not_eq_true] at hhas
    refine ⟨(rem2, ⟨cliArg, ""⟩ :: found2), ?_⟩
    simp [parseArgsAux, hfind, hhas, hok]
  | case7 v rest2 hfind e0 herr ih =>
    intro h
    exfalso
    cases rest2 with
    | nil => simp [parseArgsAux] at herr
    | cons x xs =>
      obtain ⟨v2, hv2⟩ := ih (by
        intro last c hlast hfindc
        refine h last c ?_ hfindc
        rw [List.getLast?_cons_cons]
        exact hlast)
      rw [hv2] at herr
      cases herr
  | case8 v rest2 hfind rem2 found2 hok ih =>
    intro h
    refine ⟨(v :: rem2, found2), ?_⟩
    simp [parseArgsAux, hfind, hok]


/-- C7.  A successful scan returns the unmatched tokens in original relative
order, matches in input order with exact-equality first-descriptor-wins
matching, and uses every token at most once (a consumed value is not itself
matched as a flag). -/
theorem c7_scanner (args : List String) (cli : List CLIArgument) : C7Prop args cli := by
  intro rem found h
  unfold ParseArgs at h
  cases haux : parseArgsAux cli args with
  | error e =>
    rw [haux] at h
    simp at h
  | ok v =>
    rw [haux] at h
    rcases v with ⟨rem2, found2⟩
    simp only [Prod.mk.injEq, Option.some.injEq] at h
    obtain ⟨h1, h2, _⟩ := h
    subst h1
    subst h2
    exact parseArgsAux_ok cli args _ _ haux

/-- C8 (amended).  A missing-value failure happens only when the last token,
reached as a flag, has a value-requiring first-matching descriptor, and the
error names that flag; the scan succeeds whenever the last token has no
value-requiring first-matching descriptor. -/
theorem c8_scanner (args : List String) (cli : List CLIArgument) : C8Prop args cli := by
  constructor
  · intro e he
    unfold ParseArgs at he
    cases haux : parseArgsAux cli args with
    | error e0 =>
      rw [haux] at he
      simp only [] at he
      cases he
      exact parseArgsAux_error_last cli args _ haux
    | ok v =>
      rw [haux] at he
      simp at he
  · intro hcond
    obtain ⟨v, hv⟩ := parseArgsAux_ok_of_last cli args hcond
    unfold ParseArgs
    rw [hv]

/-- C10.  Whenever the scanner returns a non-nil error, both the
remaining-tokens result and the matches result are nil. -/
theorem c10_scanner (args : List String) (cli : List CLIArgument) (e : String)
    (h : (ParseArgs args cli).2.2 = some e) :
    (ParseArgs args cli).1 = none ∧ (ParseArgs args cli).2.1 = none := by
  unfold ParseArgs at h ⊢
  cases haux : parseArgsAux cli args with
  | error e0 =>
    exact ⟨rfl, rfl⟩
  | ok v =>
    rw [haux] at h
    simp at h

/-- C8 counterexample: the claim as stated is false — with two
value-requiring flags `--a` and `--b` and input `--a --b`, the last token
`--b` exactly matches a value-requiring descriptor, yet the scan succeeds,
because `--b` is consumed as the value of `--a`. -/
theorem c8_counterexample :
    ([ "--a", "--b" ] : List String).getLast? = some "--b" ∧
    ([⟨ "--a", true⟩, ⟨ "--b", true⟩] : List CLIArgument).find?
      (fun x => x.Name == "--b") = some ⟨ "--b", true⟩ ∧
    (⟨ "--b", true⟩ : CLIArgument).HasArgument = true ∧
    (ParseArgs [ "--a", "--b" ] [⟨ "--a", true⟩, ⟨ "--b", true⟩]).2.2 = none :=
  ⟨rfl, rfl, rfl, rfl⟩

/-- C7 witness: the claim instantiated at a concrete token sequence. -/
theorem c7_scanner_witness : C7Prop [ "--a", "v", "x" ] [⟨ "--a", true⟩] :=
  c7_scanner _ _

/-- C8 witness: the amended claim instantiated at a concrete token
sequence. -/
theorem c8_scanner_witness : C8Prop [ "--a" ] [⟨ "--a", true⟩] :=
  c8_scanner _ _

/-- C10 witness: the claim instantiated at a concrete failing scan, with the
hypothesis discharged by computation. -/
theorem c10_scanner_witness :
    (ParseArgs [ "--a" ] [⟨ "--a", true⟩]).2.2 = some ("argument --a requires a value") ∧
    (ParseArgs [ "--a" ] [⟨ "--a", true⟩]).1 = none ∧
    (ParseArgs [ "--a" ] [⟨ "--a", true⟩]).2.1 = none :=
  ⟨rfl, c10_scanner _ _ _ rfl⟩

end Kssh
